import Mathlib

/-!
Verification of the botc-translations PDF-generation pipeline.

The definitions below are a shallow embedding of the Python sources:
  * `src/pdf_gen/image_handler.py`  (cached image resolution)
  * `src/pdf_gen/pdf_generator.py`  (team classification and assembly)
  * `src/pdf_gen/styles.py`         (mixed-script text segmentation)
  * `src/generate_pdf_from_json.py` (earlier revision of the same logic)

Modelling conventions:
  * JSON role records become `Item` (absent keys are `none`).
  * A possibly-null list entry is `Option Item`.
  * PIL images are abstract tokens (`Nat`); raw HTTP bodies and cached
    files are abstract byte strings (`List Nat`).
  * Filesystem, network, hashing and the PIL encode/decode steps are
    uninterpreted functions collected in `Env`.
  * The image handler's mutable state (on-disk cache, number of HTTP
    requests issued) is `CState`.
  * Fallible Python code returns `Except Unit _`; `Except.error ()`
    marks an exception escaping the function under consideration.
-/

/-- One role record from the input JSON.  Fields mirror the dictionary
keys read by the Python code; a missing key is `none`. -/
structure Item where
  id : Option String
  name : Option String
  author : Option String
  ability : Option String
  team : Option String
  image : Option String
deriving DecidableEq

/-- Uninterpreted external world: local asset files, team banner files,
the HTTP client, md5 hashing, and PIL encode/decode operations. -/
structure Env where
  /-- Local file lookup, `Path.exists` plus `Image.open` for an icon path: `none`
  means the file does not exist. -/
  fs : String → Option Nat
  /-- whether the banner file for a team exists on disk. -/
  teamBanner : String → Bool
  /-- Network fetch, `requests.get(url, timeout=10)` then `raise_for_status`:
  `some body` is a 2xx response body, `none` is any transport error or
  non-2xx status (a `requests.RequestException`). -/
  net : String → Option (List Nat)
  /-- Hashing, `hashlib.md5(url.encode()).hexdigest()`. -/
  md5 : String → String
  /-- Decoding, `Image.open(BytesIO(body))`: `none` is a PIL failure. -/
  decodeBytes : List Nat → Option Nat
  /-- Encoding, `image.save(cache_path)` with a `.png` file name: the bytes
  PIL writes for the decoded image (a re-encoding, in general different
  from the bytes the image was decoded from). -/
  encodePNG : Nat → List Nat
  /-- Cache-file decoding, `Image.open(cache_path)`: `none` is a PIL
  failure (which the source does not catch on the cache-hit path). -/
  decodeFile : List Nat → Option Nat
  /-- Python `str.upper()` (uninterpreted). -/
  upper : String → String

/-- Mutable state of the image handler: the on-disk cache (keyed by the
md5 hex digest of the URL) and a count of HTTP requests issued. -/
structure CState where
  cache : String → Option (List Nat)
  netCalls : Nat

/-- One cell of a member-table row: either the resolved image or the
`"No image"` text placeholder. -/
inductive Cell where
  | noImage : Cell
  | image : Nat → Cell
deriving DecidableEq

/-- One row of a team member table: `[image-or-placeholder, name, ability]`. -/
structure Row where
  cell : Cell
  name : String
  ability : String
deriving DecidableEq

/-- A document block handed to the external layout engine. -/
inductive Block where
  /-- the meta table: upper-cased title plus optional author. -/
  | metaTable : String → Option String → Block
  /-- team header rendered from the banner file `assets/images/<team>.png`. -/
  | headerImage : String → Block
  /-- fallback team header: capitalized team name paragraph. -/
  | headerText : String → Block
  /-- a member table. -/
  | table : List Row → Block
deriving DecidableEq

/-! ## Text segmentation (`StyleManager.split_korean_english`,
`TextProcessor.split_text`)

Both functions are `re.findall('([가-힣]+|[^가-힣]+)', text)`.  The two
character classes are complementary, and both alternatives are greedy,
so `findall` decomposes the string into its maximal script-homogeneous
runs, in order, covering every character.  `splitRuns` computes that
decomposition directly. -/

/-- Membership in the regex class `[가-힣]`, the Hangul-syllable block
U+AC00 – U+D7A3. -/
def isHangul (c : Char) : Bool :=
  0xAC00 ≤ c.toNat && c.toNat ≤ 0xD7A3

/-- Maximal-run decomposition of a character list: the value of
`re.findall('([가-힣]+|[^가-힣]+)', text)` (as lists of characters). -/
def splitRuns : List Char → List (List Char)
  | [] => []
  | c :: cs =>
    match splitRuns cs with
    | [] => [[c]]
    | [] :: rs => [c] :: [] :: rs
    | (d :: ds) :: rs =>
      if isHangul c = isHangul d then (c :: d :: ds) :: rs
      else [c] :: (d :: ds) :: rs

/-- Embeds `TextProcessor.split_text` (generate_pdf_from_json.py line 129). -/
def split_text (s : String) : List String :=
  (splitRuns s.data).map (fun l => String.mk l)

/-- Embeds `StyleManager.split_korean_english` (styles.py line 50) — the same
regex call as `split_text`. -/
def split_korean_english (s : String) : List String :=
  (splitRuns s.data).map (fun l => String.mk l)

/-! ## Python string helpers -/

/-- Python `s.split(sep)` for a one-character separator, on character
lists.  `"".split('_') = [""]`, `"_".split('_') = ["", ""]`, etc. -/
def pySplitChars (sep : Char) : List Char → List (List Char)
  | [] => [[]]
  | c :: cs =>
    if c = sep then [] :: pySplitChars sep cs
    else
      match pySplitChars sep cs with
      | [] => [[c]]
      | r :: rs => (c :: r) :: rs

/-- Python `s.split(sep)` on strings. -/
def pySplit (sep : Char) (s : String) : List String :=
  (pySplitChars sep s.data).map (fun l => String.mk l)

/-- Python `s.capitalize()` for the team-name labels: first character
upper-cased, the rest lower-cased. -/
def pyCapitalize (s : String) : String :=
  match s.data with
  | [] => ""
  | c :: cs => String.mk (c.toUpper :: cs.map Char.toLower)

/-! ## Image resolution (`ImageHandler`) -/

/-- Embeds `ImageHandler._download_image` of `src/pdf_gen/image_handler.py`
(lines 41-68): URL-keyed on-disk cache, then HTTP download;
`requests.RequestException` and the generic `except Exception` both
yield `None`, while a PIL failure on the cache-hit
`Image.open(cache_path)` is not caught and escapes (`Except.error ()`).
The cache write `image.save(cache_path)` stores `env.encodePNG img`,
the PIL re-encoding of the decoded image; the model assumes the write
itself succeeds. -/
def downloadImage (env : Env) (st : CState) (url : Option String) :
    CState × Except Unit (Option Nat) :=
  match url with
  | none => (st, Except.ok none)
  | some u =>
    if u = "" then (st, Except.ok none)
    else
      match st.cache (env.md5 u) with
      | some data =>
        match env.decodeFile data with
        | some img => (st, Except.ok (some img))
        | none => (st, Except.error ())
      | none =>
        match env.net u with
        | none => ({ st with netCalls := st.netCalls + 1 }, Except.ok none)
        | some body =>
          match env.decodeBytes body with
          | none => ({ st with netCalls := st.netCalls + 1 }, Except.ok none)
          | some img =>
            ({ netCalls := st.netCalls + 1,
               cache := fun k =>
                 if k = env.md5 u then some (env.encodePNG img) else st.cache k },
             Except.ok (some img))

/-- Embeds `ImageHandler._download_image` of `src/generate_pdf_from_json.py`
(lines 164-174): same fetch without a cache; only
`requests.RequestException` is caught, so a PIL decode failure escapes.
The `Nat` component counts HTTP requests issued. -/
def downloadImageV1 (env : Env) (n : Nat) (url : Option String) :
    Nat × Except Unit (Option Nat) :=
  match url with
  | none => (n, Except.ok none)
  | some u =>
    if u = "" then (n, Except.ok none)
    else
      match env.net u with
      | none => (n + 1, Except.ok none)
      | some body =>
        match env.decodeBytes body with
        | none => (n + 1, Except.error ())
        | some img => (n + 1, Except.ok (some img))

/-- First local candidate path, `assets/icons/Icon_<id>.png`. -/
def iconPath1 (rid : String) : String :=
  "assets/icons/Icon_" ++ rid ++ ".png"

/-- Second candidate: the id with its first two underscore-delimited
segments removed, `'_'.join(icon_id.split('_')[2:])`. -/
def iconPath2 (rid : String) : String :=
  "assets/icons/Icon_" ++ String.intercalate "_" ((pySplit '_' rid).drop 2) ++ ".png"

/-- Third candidate: the last underscore-delimited segment,
`icon_id.split('_')[-1]` (Python `split` never returns an empty list). -/
def iconPath3 (rid : String) : String :=
  "assets/icons/Icon_" ++ (pySplit '_' rid).getLastD "" ++ ".png"

/-- Embeds `ImageHandler.get_image` of `src/pdf_gen/image_handler.py` (lines
22-39): `item["id"]` raises `KeyError` when the key is absent
(`Except.error ()`); otherwise the three local paths are tried in
order and the remote fetch is the fallback. -/
def getImage (env : Env) (st : CState) (item : Item) :
    CState × Except Unit (Option Nat) :=
  match item.id with
  | none => (st, Except.error ())
  | some rid =>
    match env.fs (iconPath1 rid) with
    | some img => (st, Except.ok (some img))
    | none =>
      match env.fs (iconPath2 rid) with
      | some img => (st, Except.ok (some img))
      | none =>
        match env.fs (iconPath3 rid) with
        | some img => (st, Except.ok (some img))
        | none => downloadImage env st item.image

/-- Embeds `ImageHandler.load_image` of `src/generate_pdf_from_json.py` (lines
149-162): identical local lookup over `assets/icons`, with the
cache-less download as fallback. -/
def loadImage (env : Env) (n : Nat) (item : Item) :
    Nat × Except Unit (Option Nat) :=
  match item.id with
  | none => (n, Except.error ())
  | some rid =>
    match env.fs (iconPath1 rid) with
    | some img => (n, Except.ok (some img))
    | none =>
      match env.fs (iconPath2 rid) with
      | some img => (n, Except.ok (some img))
      | none =>
        match env.fs (iconPath3 rid) with
        | some img => (n, Except.ok (some img))
        | none => downloadImageV1 env n item.image

/-! ## Classification (`_filter_and_sort_data` / `_process_team_data`)

`PDFGenerator._process_team_data` (pdf_generator.py lines 85-101) and
`PDFDocumentBuilder._filter_and_sort_data` / `_group_data_by_team`
(generate_pdf_from_json.py lines 305-315) share the same logic: keep
non-null records whose `team` is in `VALID_TEAMS`, stable-sort them by
`VALID_TEAMS.index(x["team"])` (Python `sorted` is a stable sort,
embedded here as a stable insertion sort), and group them with a dict
comprehension ranging over all of `VALID_TEAMS`.  The one superficial
difference between the revisions — `if item` versus
`if item is not None` — does not affect the outcome: a falsy non-null
record (the empty dict) has no `team` key and is dropped by the team
test in both. -/

/-- The tuple `VALID_TEAMS`, in source order. -/
def validTeams : List String :=
  ["townsfolk", "outsider", "minion", "demon"]

/-- The test `item.get("team") in VALID_TEAMS`. -/
def validTeam (t : Option String) : Bool :=
  match t with
  | none => false
  | some s => validTeams.contains s

/-- The filtering step shared by both revisions. -/
def filteredData (data : List (Option Item)) : List Item :=
  data.filterMap (fun o =>
    match o with
    | none => none
    | some it => if validTeam it.team then some it else none)

/-- Index of a string in a list, `list.index` (total model: a missing
element maps to the list length; the callers only apply it to members). -/
def listIdx (s : String) : List String → Nat
  | [] => 0
  | t :: ts => if t = s then 0 else listIdx s ts + 1

/-- The sort key `VALID_TEAMS.index(x["team"])`.  The filtered records
always carry a valid team; the `none` case is junk for totality. -/
def teamIndex (t : Option String) : Nat :=
  match t with
  | none => validTeams.length
  | some s => listIdx s validTeams

/-- Stable insertion of one element into a key-sorted list: the new
element goes after every element of key less than or equal to its own. -/
def insertByKey {α : Type} (k : α → Nat) (a : α) : List α → List α
  | [] => [a]
  | b :: bs => if k b ≤ k a then b :: insertByKey k a bs else a :: b :: bs

/-- Stable sort by a numeric key: the behaviour of Python's `sorted`
with a key function. -/
def stableSortByKey {α : Type} (k : α → Nat) (l : List α) : List α :=
  l.foldl (fun acc a => insertByKey k a acc) []

/-- Embeds `_filter_and_sort_data` (and the filter/sort opening of
`_process_team_data`). -/
def filterAndSort (data : List (Option Item)) : List Item :=
  stableSortByKey (fun it => teamIndex it.team) (filteredData data)

/-- Embeds `_group_data_by_team` and the grouping dict of `_process_team_data`:
a dict comprehension ranging over every valid team, embedded as an
association list so that key presence is observable. -/
def groupDataByTeam (data : List Item) : List (String × List Item) :=
  validTeams.map (fun t => (t, data.filter (fun it => it.team == some t)))

/-! ## Meta block (`_process_meta_info`) -/

/-- Embeds `next((item for item in data if item.get("id") == "_meta"), None)`.
The generator calls `.get` on each element until a match, so a null
list entry reached before the first `_meta` record raises
`AttributeError` (`Except.error ()`). -/
def findMeta : List (Option Item) → Except Unit (Option Item)
  | [] => Except.ok none
  | none :: _ => Except.error ()
  | some it :: rest =>
    if it.id == some "_meta" then Except.ok (some it) else findMeta rest

/-- The meta table built from the sentinel record: title is
`meta.get("name", "").upper()`; a missing or empty `author` yields the
single-cell layout (both revisions treat falsy authors alike). -/
def metaBlock (env : Env) (m : Item) : Block :=
  let title := env.upper (m.name.getD "")
  match m.author with
  | none => Block.metaTable title none
  | some a => if a = "" then Block.metaTable title none else Block.metaTable title (some a)

/-- Embeds `_process_meta_info` (pdf_generator.py lines 41-53,
generate_pdf_from_json.py lines 229-244): no sentinel record means no
meta block. -/
def processMetaInfo (env : Env) (data : List (Option Item)) :
    Except Unit (List Block) :=
  match findMeta data with
  | Except.error e => Except.error e
  | Except.ok none => Except.ok []
  | Except.ok (some m) => Except.ok [metaBlock env m]

/-! ## Team sections and document assembly -/

/-- Team header: the banner image `assets/images/<team>.png` when it
exists, otherwise a paragraph with the capitalized team name
(`_create_team_section`). -/
def headerBlock (env : Env) (t : String) : Block :=
  if env.teamBanner t then Block.headerImage t else Block.headerText (pyCapitalize t)

/-- The image-or-placeholder cell of a member row.  The V5 resize and
JPEG re-compression of a resolved image is a rendering transformation
on the abstract image token and is modelled as the identity. -/
def mkCell (o : Option Nat) : Cell :=
  match o with
  | none => Cell.noImage
  | some i => Cell.image i

/-- The row loop of `_create_team_table`: resolve each member's image
in input order (threading the cache state), and build the row
`[image-or-placeholder, name-or-"N/A", ability-or-"N/A"]`.  An
exception from `get_image` (missing `id`, uncached-file PIL failure)
aborts the whole table. -/
def buildRows (env : Env) (st : CState) : List Item → CState × Except Unit (List Row)
  | [] => (st, Except.ok [])
  | it :: rest =>
    match getImage env st it with
    | (st1, Except.error e) => (st1, Except.error e)
    | (st1, Except.ok oimg) =>
      match buildRows env st1 rest with
      | (st2, Except.error e) => (st2, Except.error e)
      | (st2, Except.ok rows) =>
        (st2, Except.ok ({ cell := mkCell oimg,
                           name := it.name.getD "N/A",
                           ability := it.ability.getD "N/A" } :: rows))

/-- The final loop of `_process_team_data` / `build`: for each team in
`VALID_TEAMS` order, if the team is a key of the grouping, emit its
header block and member table. -/
def sectionsLoop (env : Env) (st : CState) :
    List String → List (String × List Item) → CState × Except Unit (List Block)
  | [], _ => (st, Except.ok [])
  | t :: ts, grouped =>
    match grouped.lookup t with
    | none => sectionsLoop env st ts grouped
    | some members =>
      match buildRows env st members with
      | (st1, Except.error e) => (st1, Except.error e)
      | (st1, Except.ok rows) =>
        match sectionsLoop env st1 ts grouped with
        | (st2, Except.error e) => (st2, Except.error e)
        | (st2, Except.ok rest) =>
          (st2, Except.ok (headerBlock env t :: Block.table rows :: rest))

/-- Embeds `_process_team_data` (pdf_generator.py lines 85-107): filter, sort,
group, then emit the per-team sections. -/
def processTeamData (env : Env) (st : CState) (data : List (Option Item)) :
    CState × Except Unit (List Block) :=
  sectionsLoop env st validTeams (groupDataByTeam (filterAndSort data))

/-- The element list handed to `doc.build`: meta blocks first, then the
team sections (`create_pdf` / `PDFDocumentBuilder.build`).  An escaped
exception anywhere means the run aborts in `main` and no document is
produced. -/
def buildElements (env : Env) (st : CState) (data : List (Option Item)) :
    CState × Except Unit (List Block) :=
  match processMetaInfo env data with
  | Except.error e => (st, Except.error e)
  | Except.ok metaBlocks =>
    match processTeamData env st data with
    | (st', Except.error e) => (st', Except.error e)
    | (st', Except.ok blocks) => (st', Except.ok (metaBlocks ++ blocks))

/-! ## Concrete instances used by counterexamples and witnesses -/

/-- A concrete environment: no local icon or banner files, every URL
returns the body `[1]`, which decodes to the image token `0`, whose
PNG re-encoding is `[2]` (a byte string different from the downloaded
body, as for any non-PNG download or recompressed PNG). -/
def env1 : Env :=
  { fs := fun _ => none
    teamBanner := fun _ => false
    net := fun _ => some [1]
    md5 := fun s => s
    decodeBytes := fun _ => some 0
    encodePNG := fun _ => [2]
    decodeFile := fun _ => some 0
    upper := fun s => s }

/-- A concrete environment whose network always fails. -/
def envDown : Env :=
  { env1 with net := fun _ => none }

/-- The empty starting state: empty cache, no HTTP requests issued. -/
def st0 : CState :=
  { cache := fun _ => none, netCalls := 0 }

/-- A record with a valid team but no `id` key. -/
def itemNoId : Item :=
  { id := none, name := some "Imp", author := none, ability := some "Kills",
    team := some "demon", image := none }

/-- A `_meta` sentinel that also carries a valid team. -/
def itemMetaDemon : Item :=
  { id := some "_meta", name := some "Imp", author := none,
    ability := some "Kills", team := some "demon", image := none }

/-- A plain townsfolk record. -/
def itemTf : Item :=
  { id := some "tf1", name := some "Librarian", author := none,
    ability := some "Reads", team := some "townsfolk", image := none }

/-- A plain demon record. -/
def itemDemon : Item :=
  { id := some "d1", name := some "Imp", author := none,
    ability := some "Kills", team := some "demon", image := none }

/-- A second `_meta` sentinel, with a different title. -/
def itemMeta2 : Item :=
  { id := some "_meta", name := some "Other", author := none, ability := none,
    team := none, image := none }

/-- A `_meta` sentinel with a title and no team. -/
def itemMeta : Item :=
  { id := some "_meta", name := some "Script", author := none, ability := none,
    team := none, image := none }

/-- The shape of the blocks one team contributes to the output: nothing
when the team is not a key of the grouping, otherwise its header block
followed by its member table. -/
def sectionShape (env : Env) (grouped : List (String × List Item))
    (f : String → List Row) (t : String) : List Block :=
  match grouped.lookup t with
  | none => []
  | some _ => [headerBlock env t, Block.table (f t)]

/-- Decidable equality for `Except`, used to evaluate the embedding at
concrete inputs. -/
instance exceptDecEq {e a : Type} [DecidableEq e] [DecidableEq a] :
    DecidableEq (Except e a) := fun x y =>
  match x, y with
  | Except.error u, Except.error v =>
    if h : u = v then isTrue (by rw [h])
    else isFalse (fun hh => by cases hh; exact h rfl)
  | Except.error _, Except.ok _ => isFalse (fun hh => Except.noConfusion hh)
  | Except.ok _, Except.error _ => isFalse (fun hh => Except.noConfusion hh)
  | Except.ok u, Except.ok v =>
    if h : u = v then isTrue (by rw [h])
    else isFalse (fun hh => by cases hh; exact h rfl)

/-- Environment with exactly one local icon file, for witnesses. -/
def envLocal : Env :=
  { env1 with fs := fun p => if p = "assets/icons/Icon_tf1.png" then some 7 else none }

/-! # Theorems -/

theorem splitRuns_cons_of_nil (c : Char) (cs : List Char)
    (h : splitRuns cs = []) : splitRuns (c :: cs) = [[c]] := by
  unfold splitRuns
  rw [h]

theorem splitRuns_cons_same (c : Char) (cs : List Char) (d : Char)
    (ds : List Char) (rs : List (List Char))
    (h : splitRuns cs = (d :: ds) :: rs) (hcd : isHangul c = isHangul d) :
    splitRuns (c :: cs) = (c :: d :: ds) :: rs := by
  unfold splitRuns
  rw [h]
  exact if_pos hcd

theorem splitRuns_cons_diff (c : Char) (cs : List Char) (d : Char)
    (ds : List Char) (rs : List (List Char))
    (h : splitRuns cs = (d :: ds) :: rs) (hcd : ¬isHangul c = isHangul d) :
    splitRuns (c :: cs) = [c] :: (d :: ds) :: rs := by
  unfold splitRuns
  rw [h]
  exact if_neg hcd

theorem splitRuns_not_nil_mem : ∀ l : List Char, [] ∉ splitRuns l := by
  intro l
  induction l with
  | nil => simp [splitRuns]
  | cons c cs ih =>
    cases h : splitRuns cs with
    | nil => rw [splitRuns_cons_of_nil c cs h]; simp
    | cons r rs =>
      cases r with
      | nil => exact absurd (h ▸ List.mem_cons_self [] rs) ih
      | cons d ds =>
        by_cases hcd : isHangul c = isHangul d
        · rw [splitRuns_cons_same c cs d ds rs h hcd]
          intro hmem
          rcases List.mem_cons.mp hmem with h1 | h1
          · exact absurd h1.symm (List.cons_ne_nil _ _)
          · exact ih (h ▸ List.mem_cons_of_mem _ h1)
        · rw [splitRuns_cons_diff c cs d ds rs h hcd]
          intro hmem
          rcases List.mem_cons.mp hmem with h1 | h1
          · exact absurd h1.symm (List.cons_ne_nil _ _)
          · exact ih (h ▸ h1)

theorem splitRuns_flatten : ∀ l : List Char, (splitRuns l).flatten = l := by
  intro l
  induction l with
  | nil => simp [splitRuns]
  | cons c cs ih =>
    cases h : splitRuns cs with
    | nil =>
      rw [h] at ih
      simp at ih
      rw [splitRuns_cons_of_nil c cs h]
      simp [ih]
    | cons r rs =>
      cases r with
      | nil => exact absurd (h ▸ List.mem_cons_self [] rs) (splitRuns_not_nil_mem cs)
      | cons d ds =>
        rw [h] at ih
        by_cases hcd : isHangul c = isHangul d
        · rw [splitRuns_cons_same c cs d ds rs h hcd]
          simp only [List.flatten_cons] at ih ⊢
          simp [ih]
        · rw [splitRuns_cons_diff c cs d ds rs h hcd]
          simp only [List.flatten_cons] at ih ⊢
          simp [ih]

theorem splitRuns_homogeneous :
    ∀ l : List Char, ∀ r ∈ splitRuns l,
      (∀ c ∈ r, isHangul c = true) ∨ (∀ c ∈ r, isHangul c = false) := by
  intro l
  induction l with
  | nil => simp [splitRuns]
  | cons c cs ih =>
    intro r hr
    cases h : splitRuns cs with
    | nil =>
      rw [splitRuns_cons_of_nil c cs h] at hr
      simp at hr
      subst hr
      cases hc : isHangul c
      · right; intro x hx; rcases List.mem_singleton.mp hx with rfl; exact hc
      · left; intro x hx; rcases List.mem_singleton.mp hx with rfl; exact hc
    | cons r0 rs =>
      cases r0 with
      | nil => exact absurd (h ▸ List.mem_cons_self [] rs) (splitRuns_not_nil_mem cs)
      | cons d ds =>
        by_cases hcd : isHangul c = isHangul d
        · rw [splitRuns_cons_same c cs d ds rs h hcd] at hr
          rcases List.mem_cons.mp hr with h1 | h1
          · subst h1
            have hds := ih (d :: ds) (h ▸ List.mem_cons_self _ _)
            rcases hds with hall | hall
            · left
              intro x hx
              rcases List.mem_cons.mp hx with rfl | hx'
              · exact hcd.trans (hall d (List.mem_cons_self _ _))
              · exact hall x hx'
            · right
              intro x hx
              rcases List.mem_cons.mp hx with rfl | hx'
              · exact hcd.trans (hall d (List.mem_cons_self _ _))
              · exact hall x hx'
          · exact ih r (h ▸ List.mem_cons_of_mem _ h1)
        · rw [splitRuns_cons_diff c cs d ds rs h hcd] at hr
          rcases List.mem_cons.mp hr with h1 | h1
          · subst h1
            cases hc : isHangul c
            · right; intro x hx; rcases List.mem_singleton.mp hx with rfl; exact hc
            · left; intro x hx; rcases List.mem_singleton.mp hx with rfl; exact hc
          · exact ih r (h ▸ h1)

theorem stringJoin_map_mk (acc : List Char) (rs : List (List Char)) :
    (rs.map (fun l => String.mk l)).foldl (fun a b => a ++ b) (String.mk acc)
      = String.mk (acc ++ rs.flatten) := by
  induction rs generalizing acc with
  | nil => simp
  | cons r rs ih =>
    simp only [List.map_cons, List.foldl_cons, List.flatten_cons]
    have happ : String.mk acc ++ String.mk r = String.mk (acc ++ r) := rfl
    rw [happ, ih]
    simp

/-! ## Stable-sort lemmas -/

theorem insertByKey_perm {α : Type} (k : α → Nat) (a : α) (l : List α) :
    (insertByKey k a l).Perm (a :: l) := by
  induction l with
  | nil => simp [insertByKey]
  | cons b bs ih =>
    simp only [insertByKey]
    by_cases h : k b ≤ k a
    · rw [if_pos h]
      exact (ih.cons b).trans (List.Perm.swap a b bs)
    · rw [if_neg h]

theorem foldl_insert_perm {α : Type} (k : α → Nat) (l acc : List α) :
    (l.foldl (fun acc a => insertByKey k a acc) acc).Perm (acc ++ l) := by
  induction l generalizing acc with
  | nil => simp
  | cons a l ih =>
    simp only [List.foldl_cons]
    refine (ih (insertByKey k a acc)).trans ?_
    have h1 : (insertByKey k a acc ++ l).Perm ((a :: acc) ++ l) :=
      (insertByKey_perm k a acc).append_right l
    exact h1.trans List.perm_middle.symm

theorem stableSortByKey_perm {α : Type} (k : α → Nat) (l : List α) :
    (stableSortByKey k l).Perm l := by
  simpa using foldl_insert_perm k l []

theorem insertByKey_pairwise {α : Type} (k : α → Nat) (a : α) (l : List α)
    (hl : l.Pairwise (fun x y => k x ≤ k y)) :
    (insertByKey k a l).Pairwise (fun x y => k x ≤ k y) := by
  induction l with
  | nil => simp [insertByKey]
  | cons b bs ih =>
    rcases List.pairwise_cons.mp hl with ⟨hb, hbs⟩
    simp only [insertByKey]
    by_cases h : k b ≤ k a
    · rw [if_pos h]
      refine List.pairwise_cons.mpr ⟨?_, ih hbs⟩
      intro x hx
      have hx' : x ∈ a :: bs := (insertByKey_perm k a bs).mem_iff.mp hx
      rcases List.mem_cons.mp hx' with rfl | hx''
      · exact h
      · exact hb x hx''
    · rw [if_neg h]
      have hab : k a ≤ k b := Nat.le_of_not_le h
      refine List.pairwise_cons.mpr ⟨?_, hl⟩
      intro x hx
      rcases List.mem_cons.mp hx with rfl | hx'
      · exact hab
      · exact hab.trans (hb x hx')

theorem foldl_insert_pairwise {α : Type} (k : α → Nat) (l acc : List α)
    (hacc : acc.Pairwise (fun x y => k x ≤ k y)) :
    (l.foldl (fun acc a => insertByKey k a acc) acc).Pairwise
      (fun x y => k x ≤ k y) := by
  induction l generalizing acc with
  | nil => exact hacc
  | cons a l ih =>
    simp only [List.foldl_cons]
    exact ih _ (insertByKey_pairwise k a acc hacc)

theorem stableSortByKey_pairwise {α : Type} (k : α → Nat) (l : List α) :
    (stableSortByKey k l).Pairwise (fun x y => k x ≤ k y) :=
  foldl_insert_pairwise k l [] (by simp)

theorem insertByKey_filter_neg {α : Type} (k : α → Nat) (p : α → Bool)
    (a : α) (l : List α) (hpa : p a = false) :
    (insertByKey k a l).filter p = l.filter p := by
  induction l with
  | nil => simp [insertByKey, hpa]
  | cons b bs ih =>
    simp only [insertByKey]
    by_cases h : k b ≤ k a
    · rw [if_pos h]
      rw [List.filter_cons, List.filter_cons, ih]
    · rw [if_neg h]
      rw [List.filter_cons]
      simp [hpa]

theorem insertByKey_filter_pos {α : Type} (k : α → Nat) (p : α → Bool)
    (a : α) (l : List α)
    (hp : ∀ x y, p x = true → p y = true → k x = k y)
    (hl : l.Pairwise (fun x y => k x ≤ k y)) (hpa : p a = true) :
    (insertByKey k a l).filter p = l.filter p ++ [a] := by
  induction l with
  | nil => simp [insertByKey, hpa]
  | cons b bs ih =>
    rcases List.pairwise_cons.mp hl with ⟨hb, hbs⟩
    simp only [insertByKey]
    by_cases h : k b ≤ k a
    · rw [if_pos h]
      rw [List.filter_cons, List.filter_cons]
      cases hpb : p b
      · simp [hpb, ih hbs]
      · simp [hpb, ih hbs]
    · rw [if_neg h]
      have hnil : (b :: bs).filter p = [] := by
        rw [List.filter_eq_nil_iff]
        intro x hx hpx
        have hxa : k x = k a := hp x a hpx hpa
        have hbx : k b ≤ k x := by
          rcases List.mem_cons.mp hx with rfl | hx'
          · exact Nat.le_refl _
          · exact hb x hx'
        omega
      rw [List.filter_cons]
      simp [hpa, hnil]

theorem foldl_insert_filter {α : Type} (k : α → Nat) (p : α → Bool)
    (hp : ∀ x y, p x = true → p y = true → k x = k y) :
    ∀ (l acc : List α), acc.Pairwise (fun x y => k x ≤ k y) →
      (l.foldl (fun acc a => insertByKey k a acc) acc).filter p
        = acc.filter p ++ l.filter p := by
  intro l
  induction l with
  | nil => intro acc _; simp
  | cons a l ih =>
    intro acc hacc
    simp only [List.foldl_cons]
    rw [ih (insertByKey k a acc) (insertByKey_pairwise k a acc hacc)]
    cases hpa : p a
    · rw [insertByKey_filter_neg k p a acc hpa, List.filter_cons]
      simp [hpa]
    · rw [insertByKey_filter_pos k p a acc hp hacc hpa, List.filter_cons]
      simp [hpa]

theorem stableSortByKey_filter {α : Type} (k : α → Nat) (p : α → Bool)
    (hp : ∀ x y, p x = true → p y = true → k x = k y) (l : List α) :
    (stableSortByKey k l).filter p = l.filter p := by
  have h := foldl_insert_filter k p hp l [] (by simp)
  simpa [stableSortByKey] using h

/-! ## Grouping and assembly lemmas -/

theorem lookup_map_pair {g : String → List Item} :
    ∀ (ts : List String) (t : String), t ∈ ts →
      (ts.map (fun u => (u, g u))).lookup t = some (g t) := by
  intro ts
  induction ts with
  | nil => intro t ht; simp at ht
  | cons u ts ih =>
    intro t ht
    simp only [List.map_cons, List.lookup_cons]
    by_cases h : t = u
    · subst h
      simp
    · have : (t == u) = false := by simp [h]
      rw [this]
      rcases List.mem_cons.mp ht with rfl | ht'
      · simp at h
      · exact ih t ht'

theorem groupDataByTeam_lookup (d : List Item) (t : String)
    (ht : t ∈ validTeams) :
    (groupDataByTeam d).lookup t = some (d.filter (fun it => it.team == some t)) :=
  lookup_map_pair validTeams t ht

theorem listBind_congr {α β : Type} (f g : α → List β) :
    ∀ l : List α, (∀ x ∈ l, f x = g x) → l.flatMap f = l.flatMap g := by
  intro l
  induction l with
  | nil => intro _; rfl
  | cons a l ih =>
    intro h
    simp only [List.flatMap_cons]
    rw [h a (List.mem_cons_self _ _), ih (fun x hx => h x (List.mem_cons_of_mem _ hx))]

theorem buildRows_names (env : Env) :
    ∀ (mem : List Item) (st : CState) (rows : List Row),
      (buildRows env st mem).2 = Except.ok rows →
      rows.map (fun r => (r.name, r.ability))
        = mem.map (fun m => (m.name.getD "N/A", m.ability.getD "N/A")) := by
  intro mem
  induction mem with
  | nil =>
    intro st rows h
    simp only [buildRows] at h
    cases h
    rfl
  | cons it rest ih =>
    intro st rows h
    cases hgi : getImage env st it with
    | mk st1 r1 =>
      cases r1 with
      | error e =>
        simp only [buildRows, hgi] at h
        exact Except.noConfusion h
      | ok oimg =>
        cases hbr : buildRows env st1 rest with
        | mk st2 r2 =>
          cases r2 with
          | error e =>
            simp only [buildRows, hgi, hbr] at h
            exact Except.noConfusion h
          | ok rows' =>
            simp only [buildRows, hgi, hbr] at h
            cases h
            simp only [List.map_cons]
            rw [ih st1 rows' (by rw [hbr])]

theorem buildRows_err (env : Env) :
    ∀ (mem : List Item) (st : CState), (∃ x ∈ mem, x.id = none) →
      (buildRows env st mem).2 = Except.error () := by
  intro mem
  induction mem with
  | nil =>
    intro st h
    rcases h with ⟨x, hx, _⟩
    simp at hx
  | cons it rest ih =>
    intro st h
    cases hgi : getImage env st it with
    | mk st1 r1 =>
      cases r1 with
      | error e =>
        cases e
        simp only [buildRows, hgi]
      | ok oimg =>
        rcases h with ⟨x, hx, hxid⟩
        rcases List.mem_cons.mp hx with rfl | hx'
        · exfalso
          simp only [getImage, hxid] at hgi
          cases hgi
        · cases hbr : buildRows env st1 rest with
          | mk st2 r2 =>
            have h2 : r2 = Except.error () := by
              have herr := ih st1 ⟨x, hx', hxid⟩
              rw [hbr] at herr
              exact herr
            subst h2
            simp only [buildRows, hgi, hbr]

theorem sectionsLoop_structure (env : Env) :
    ∀ (ts : List String) (grouped : List (String × List Item)) (st : CState)
      (blocks : List Block), ts.Nodup →
      (sectionsLoop env st ts grouped).2 = Except.ok blocks →
      ∃ f : String → List Row,
        blocks = ts.flatMap (sectionShape env grouped f) ∧
        ∀ t ∈ ts, ∀ mem, grouped.lookup t = some mem →
          (f t).map (fun r => (r.name, r.ability))
            = mem.map (fun m => (m.name.getD "N/A", m.ability.getD "N/A")) := by
  intro ts
  induction ts with
  | nil =>
    intro grouped st blocks _ h
    simp only [sectionsLoop] at h
    cases h
    exact ⟨fun _ => [], by simp, by simp⟩
  | cons t ts ih =>
    intro grouped st blocks hnd h
    rcases List.nodup_cons.mp hnd with ⟨hnotmem, hnd'⟩
    cases hlk : grouped.lookup t with
    | none =>
      simp only [sectionsLoop, hlk] at h
      rcases ih grouped st blocks hnd' h with ⟨f, hbl, hcorr⟩
      refine ⟨f, ?_, ?_⟩
      · rw [List.flatMap_cons]
        simp only [sectionShape, hlk]
        simpa using hbl
      · intro u hu mem hmem
        rcases List.mem_cons.mp hu with rfl | hu'
        · rw [hlk] at hmem; cases hmem
        · exact hcorr u hu' mem hmem
    | some members =>
      cases hbr : buildRows env st members with
      | mk st1 r1 =>
        cases r1 with
        | error e =>
          simp only [sectionsLoop, hlk, hbr] at h
          exact Except.noConfusion h
        | ok rows =>
          cases hsl : sectionsLoop env st1 ts grouped with
          | mk st2 r2 =>
            cases r2 with
            | error e =>
              simp only [sectionsLoop, hlk, hbr, hsl] at h
              exact Except.noConfusion h
            | ok rest =>
              simp only [sectionsLoop, hlk, hbr, hsl] at h
              cases h
              rcases ih grouped st1 rest hnd' (by rw [hsl]) with ⟨f, hbl, hcorr⟩
              refine ⟨fun x => if x = t then rows else f x, ?_, ?_⟩
              · have h1 : ts.flatMap (sectionShape env grouped
                      (fun x => if x = t then rows else f x))
                    = ts.flatMap (sectionShape env grouped f) := by
                  apply listBind_congr
                  intro u hu
                  have hut : u ≠ t := fun he => hnotmem (he ▸ hu)
                  simp only [sectionShape]
                  cases grouped.lookup u with
                  | none => rfl
                  | some m2 => rw [if_neg hut]
                rw [List.flatMap_cons, h1, ← hbl]
                simp [sectionShape, hlk]
              · intro u hu mem hmem
                rcases List.mem_cons.mp hu with rfl | hu'
                · rw [hlk] at hmem
                  injection hmem with heq
                  subst heq
                  have hfu : (fun x => if x = u then rows else f x) u = rows := by simp
                  rw [hfu]
                  exact buildRows_names env _ st rows (by rw [hbr])
                · have hut : u ≠ t := fun he => hnotmem (he ▸ hu')
                  have hfu : (fun x => if x = t then rows else f x) u = f u := by
                    simp [hut]
                  rw [hfu]
                  exact hcorr u hu' mem hmem

theorem sectionsLoop_err (env : Env) :
    ∀ (ts : List String) (grouped : List (String × List Item)) (st : CState),
      (∃ t ∈ ts, ∃ mem, grouped.lookup t = some mem ∧ ∃ x ∈ mem, x.id = none) →
      (sectionsLoop env st ts grouped).2 = Except.error () := by
  intro ts
  induction ts with
  | nil =>
    intro grouped st h
    rcases h with ⟨t, ht, _⟩
    simp at ht
  | cons t ts ih =>
    intro grouped st h
    rcases h with ⟨u, hu, mem, hmem, hx⟩
    cases hlk : grouped.lookup t with
    | none =>
      simp only [sectionsLoop, hlk]
      rcases List.mem_cons.mp hu with rfl | hu'
      · rw [hlk] at hmem; cases hmem
      · exact ih grouped st ⟨u, hu', mem, hmem, hx⟩
    | some members =>
      cases hbr : buildRows env st members with
      | mk st1 r1 =>
        cases r1 with
        | error e =>
          cases e
          simp only [sectionsLoop, hlk, hbr]
        | ok rows =>
          rcases List.mem_cons.mp hu with rfl | hu'
          · exfalso
            rw [hlk] at hmem
            injection hmem with heq
            subst heq
            have herr := buildRows_err env _ st hx
            rw [hbr] at herr
            exact Except.noConfusion herr
          · cases hsl : sectionsLoop env st1 ts grouped with
            | mk st2 r2 =>
              have h2 : r2 = Except.error () := by
                have := ih grouped st1 ⟨u, hu', mem, hmem, hx⟩
                rw [hsl] at this
                exact this
              subst h2
              simp only [sectionsLoop, hlk, hbr, hsl]

/-! ## Claim theorems -/

/-- C3: for every string, the runs produced by the text segmenter
(`split_korean_english` / `split_text`) concatenate back to the string
exactly, every run is script-homogeneous (entirely Hangul-syllable
characters or entirely non-Hangul characters), and the empty string
yields an empty sequence of runs. -/
theorem C3_segmentation_roundtrip :
    (∀ s : String, String.join (split_text s) = s) ∧
    (∀ s : String, ∀ r ∈ split_text s,
      (∀ c ∈ r.data, isHangul c = true) ∨ (∀ c ∈ r.data, isHangul c = false)) ∧
    split_text "" = [] ∧
    (∀ s : String, split_korean_english s = split_text s) := by
  refine ⟨?_, ?_, rfl, fun s => rfl⟩
  · intro s
    have h := stringJoin_map_mk [] (splitRuns s.data)
    simp only [List.nil_append] at h
    have h2 : String.join (split_text s) = String.mk (splitRuns s.data).flatten := h
    rw [h2, splitRuns_flatten]
  · intro s r hr
    rcases List.mem_map.mp hr with ⟨l, hl, rfl⟩
    exact splitRuns_homogeneous s.data l hl

/-- C3 witness: a concrete mixed-script string splits losslessly and
its Hangul run is homogeneous. -/
theorem C3_segmentation_roundtrip_witness :
    String.join (split_text "ab가나d") = "ab가나d" ∧
    ((∀ c ∈ ("가나" : String).data, isHangul c = true) ∨
      (∀ c ∈ ("가나" : String).data, isHangul c = false)) :=
  ⟨C3_segmentation_roundtrip.1 "ab가나d",
   C3_segmentation_roundtrip.2.1 "ab가나d" "가나" (by decide)⟩

/-- C5: when the exact-id local icon `assets/icons/Icon_<role_id>.png`
exists, both revisions of the resolver return that local image with the
handler state unchanged — no network call and no cache write — whatever
the record's `image` URL is. -/
theorem C5_local_icon_precedence (env : Env) (st : CState) (n : Nat)
    (item : Item) (rid : String) (img : Nat)
    (hid : item.id = some rid)
    (hfs : env.fs ("assets/icons/Icon_" ++ rid ++ ".png") = some img) :
    getImage env st item = (st, Except.ok (some img)) ∧
    loadImage env n item = (n, Except.ok (some img)) := by
  have h1 : env.fs (iconPath1 rid) = some img := hfs
  constructor
  · simp only [getImage, hid, h1]
  · simp only [loadImage, hid, h1]

/-- C5 witness: a concrete record whose exact-id icon exists resolves
locally in both revisions. -/
theorem C5_local_icon_precedence_witness :
    getImage envLocal st0 itemTf = (st0, Except.ok (some 7)) ∧
    loadImage envLocal 0 itemTf = (0, Except.ok (some 7)) :=
  C5_local_icon_precedence envLocal st0 0 itemTf "tf1" 7 rfl (by decide)

/-- C6: in both revisions of the remote-fetch step an absent or empty
URL yields Absent with no state change (no network call), and a network
error or non-2xx response yields Absent (an `Except.ok none`, not an
escaping exception) after the single failed request. -/
theorem C6_remote_fetch_absent_on_failure (env : Env) (st : CState)
    (n : Nat) (u : String)
    (hu : u ≠ "") (hc : st.cache (env.md5 u) = none) (hn : env.net u = none) :
    downloadImage env st none = (st, Except.ok none) ∧
    downloadImage env st (some "") = (st, Except.ok none) ∧
    downloadImage env st (some u)
      = ({ st with netCalls := st.netCalls + 1 }, Except.ok none) ∧
    downloadImageV1 env n none = (n, Except.ok none) ∧
    downloadImageV1 env n (some "") = (n, Except.ok none) ∧
    downloadImageV1 env n (some u) = (n + 1, Except.ok none) := by
  refine ⟨rfl, ?_, ?_, rfl, ?_, ?_⟩
  · simp [downloadImage]
  · simp only [downloadImage, if_neg hu, hc, hn]
  · simp [downloadImageV1]
  · simp only [downloadImageV1, if_neg hu, hn]

/-- C6 witness: with a failing network and a cold cache, both fetch
revisions return Absent without raising. -/
theorem C6_remote_fetch_absent_on_failure_witness :
    downloadImage envDown st0 (some "x")
      = ({ st0 with netCalls := st0.netCalls + 1 }, Except.ok none) ∧
    downloadImageV1 envDown 0 (some "x") = (1, Except.ok none) := by
  have h := C6_remote_fetch_absent_on_failure envDown st0 0 "x" (by decide) rfl rfl
  exact ⟨h.2.2.1, h.2.2.2.2.2⟩

/-- C1 counterexample: with the downloaded body `[1]` decoding to an
image whose PIL PNG re-encoding is `[2]` (as for any non-PNG download),
the cache entry written by `_download_image` holds `[2]`, not the
downloaded bytes `[1]` — the entry is not the bytes verbatim. -/
theorem C1_counterexample_cache_not_verbatim :
    env1.net "u" = some [1] ∧
    (downloadImage env1 st0 (some "u")).1.cache (env1.md5 "u") = some [2] ∧
    ¬(downloadImage env1 st0 (some "u")).1.cache (env1.md5 "u") = some [1] := by
  refine ⟨rfl, ?_, ?_⟩
  · decide
  · decide

/-- C1 amended: on the first successful download the cache entry stores
the PIL PNG re-encoding of the decoded image (not the body verbatim);
the two sequential resolutions of the same URL issue exactly one
network call between them, and — when decoding the cached re-encoding
gives back the image — the second resolution returns the same image as
the first. -/
theorem C1_amended_cache_idempotence (env : Env) (st : CState) (u : String)
    (body : List Nat) (img : Nat)
    (hu : u ≠ "") (hc : st.cache (env.md5 u) = none)
    (hn : env.net u = some body) (hd : env.decodeBytes body = some img)
    (hrt : env.decodeFile (env.encodePNG img) = some img) :
    (downloadImage env st (some u)).2 = Except.ok (some img) ∧
    (downloadImage env st (some u)).1.netCalls = st.netCalls + 1 ∧
    (downloadImage env st (some u)).1.cache (env.md5 u)
      = some (env.encodePNG img) ∧
    (downloadImage env ((downloadImage env st (some u)).1) (some u)).1.netCalls
      = st.netCalls + 1 ∧
    (downloadImage env ((downloadImage env st (some u)).1) (some u)).2
      = Except.ok (some img) := by
  have hstep : downloadImage env st (some u)
      = ({ netCalls := st.netCalls + 1,
           cache := fun k => if k = env.md5 u then some (env.encodePNG img)
             else st.cache k }, Except.ok (some img)) := by
    simp only [downloadImage, if_neg hu, hc, hn, hd]
  have hstep2 : downloadImage env
      ({ netCalls := st.netCalls + 1,
         cache := fun k => if k = env.md5 u then some (env.encodePNG img)
           else st.cache k } : CState) (some u)
      = ({ netCalls := st.netCalls + 1,
           cache := fun k => if k = env.md5 u then some (env.encodePNG img)
             else st.cache k }, Except.ok (some img)) := by
    simp only [downloadImage, if_neg hu]
    simp [hrt]
  have hsnd : downloadImage env ((downloadImage env st (some u)).1) (some u)
      = ((downloadImage env st (some u)).1, Except.ok (some img)) := by
    rw [hstep]
    exact hstep2
  refine ⟨by rw [hstep], by rw [hstep], ?_, by rw [hsnd, hstep], by rw [hsnd]⟩
  rw [hstep]
  simp

/-- C1 amended witness: a concrete first-then-second resolution of one
URL with a warm codec round-trip. -/
theorem C1_amended_cache_idempotence_witness :
    (downloadImage env1 st0 (some "u")).2 = Except.ok (some 0) ∧
    (downloadImage env1 st0 (some "u")).1.netCalls = st0.netCalls + 1 ∧
    (downloadImage env1 st0 (some "u")).1.cache (env1.md5 "u")
      = some (env1.encodePNG 0) ∧
    (downloadImage env1 ((downloadImage env1 st0 (some "u")).1) (some "u")).1.netCalls
      = st0.netCalls + 1 ∧
    (downloadImage env1 ((downloadImage env1 st0 (some "u")).1) (some "u")).2
      = Except.ok (some 0) :=
  C1_amended_cache_idempotence env1 st0 "u" [1] 0 (by decide) rfl rfl rfl rfl

/-- C7: the classifier drops null records and records with an
unrecognized team (the result is a permutation of exactly the kept
records), sorts by the index of the team in
townsfolk < outsider < minion < demon, and is stable: for every team
the subsequence of that team's records equals the one in the filtered
input, so two same-team records keep their relative input order. -/
theorem C7_classifier_filter_stable_sort (data : List (Option Item)) :
    (filterAndSort data).Perm (filteredData data) ∧
    (filterAndSort data).Pairwise
      (fun a b => teamIndex a.team ≤ teamIndex b.team) ∧
    ∀ t : String,
      (filterAndSort data).filter (fun it => it.team == some t)
        = (filteredData data).filter (fun it => it.team == some t) := by
  refine ⟨stableSortByKey_perm _ _, stableSortByKey_pairwise _ _, fun t => ?_⟩
  apply stableSortByKey_filter
  intro x y hx hy
  have hx' : x.team = some t := by simpa using hx
  have hy' : y.team = some t := by simpa using hy
  rw [hx', hy']

/-- C7 witness: concrete classification of a two-record list. -/
theorem C7_classifier_filter_stable_sort_witness :
    (filterAndSort [some itemDemon, none, some itemTf]).Perm
      (filteredData [some itemDemon, none, some itemTf]) ∧
    (filterAndSort [some itemDemon, none, some itemTf]).Pairwise
      (fun a b => teamIndex a.team ≤ teamIndex b.team) ∧
    (filterAndSort [some itemDemon, none, some itemTf]).filter
        (fun it => it.team == some "demon")
      = (filteredData [some itemDemon, none, some itemTf]).filter
        (fun it => it.team == some "demon") :=
  ⟨(C7_classifier_filter_stable_sort _).1,
   (C7_classifier_filter_stable_sort _).2.1,
   (C7_classifier_filter_stable_sort _).2.2 "demon"⟩

theorem findMeta_append (pre : List (Option Item)) (m : Item)
    (post : List (Option Item))
    (hpre : ∀ x ∈ pre, ∃ y, x = some y ∧ y.id ≠ some "_meta")
    (hm : m.id = some "_meta") :
    findMeta (pre ++ some m :: post) = Except.ok (some m) := by
  induction pre with
  | nil =>
    simp only [List.nil_append, findMeta]
    rw [if_pos (by simp [hm])]
  | cons x pre ih =>
    rcases hpre x (List.mem_cons_self _ _) with ⟨y, rfl, hy⟩
    simp only [List.cons_append, findMeta]
    rw [if_neg (by simp [hy])]
    exact ih (fun z hz => hpre z (List.mem_cons_of_mem _ hz))

/-- C9: when two or more records carry `id == "_meta"`, the meta block
is derived from the first such record in input order; all later `_meta`
records are ignored. -/
theorem C9_first_meta_record_wins (env : Env) (pre post : List (Option Item))
    (m m' : Item)
    (hpre : ∀ x ∈ pre, ∃ y, x = some y ∧ y.id ≠ some "_meta")
    (hm : m.id = some "_meta")
    (hm' : some m' ∈ post) (hm'id : m'.id = some "_meta") :
    processMetaInfo env (pre ++ some m :: post) = Except.ok [metaBlock env m] := by
  unfold processMetaInfo
  rw [findMeta_append pre m post hpre hm]

/-- C9 witness: two sentinel records; the block comes from the first. -/
theorem C9_first_meta_record_wins_witness :
    processMetaInfo env1 ([] ++ some itemMeta :: [some itemMeta2])
      = Except.ok [metaBlock env1 itemMeta] :=
  C9_first_meta_record_wins env1 [] [some itemMeta2] itemMeta itemMeta2
    (by intro x hx; exact absurd hx (List.not_mem_nil x))
    rfl (List.mem_cons_self _ _) rfl

theorem buildElements_ok (env : Env) (st : CState) (data : List (Option Item))
    (blocks : List Block)
    (h : (buildElements env st data).2 = Except.ok blocks) :
    ∃ mb tb, processMetaInfo env data = Except.ok mb ∧
      (processTeamData env st data).2 = Except.ok tb ∧ blocks = mb ++ tb := by
  cases hmi : processMetaInfo env data with
  | error e =>
    simp only [buildElements, hmi] at h
    exact Except.noConfusion h
  | ok mb =>
    cases hptd : processTeamData env st data with
    | mk st2 r2 =>
      cases r2 with
      | error e =>
        simp only [buildElements, hmi, hptd] at h
        exact Except.noConfusion h
      | ok tb =>
        simp only [buildElements, hmi, hptd] at h
        cases h
        exact ⟨mb, tb, rfl, by simp [hptd], rfl⟩

/-- C4 counterexample: a record with a valid team but no `id` key makes
`item["id"]` raise; the exception escapes the build, so the run aborts
and no document at all is produced — the record does not degrade to a
placeholder. -/
theorem C4_counterexample_missing_id_aborts :
    (buildElements env1 st0 [some itemNoId]).2 = Except.error () := by
  decide

/-- C4 amended: whenever any record with a valid team lacks `id`, the
uncaught `KeyError` from image resolution propagates out of the
assembler: the element list is never produced and the top-level handler
terminates the run. -/
theorem C4_amended_missing_id_aborts (env : Env) (st : CState)
    (data : List (Option Item)) (it : Item)
    (hmem : some it ∈ data) (hv : validTeam it.team = true) (hid : it.id = none) :
    (buildElements env st data).2 = Except.error () := by
  cases hmi : processMetaInfo env data with
  | error e =>
    cases e
    simp only [buildElements, hmi]
  | ok mb =>
    have herr : (processTeamData env st data).2 = Except.error () := by
      unfold processTeamData
      apply sectionsLoop_err
      cases hvt : it.team with
      | none => rw [hvt] at hv; simp [validTeam] at hv
      | some s =>
        have hs : s ∈ validTeams := by
          rw [hvt] at hv
          simpa [validTeam] using hv
        refine ⟨s, hs, (filterAndSort data).filter (fun x => x.team == some s),
          groupDataByTeam_lookup _ s hs, it, ?_, hid⟩
        apply List.mem_filter.mpr
        constructor
        · apply (stableSortByKey_perm _ _).mem_iff.mpr
          apply List.mem_filterMap.mpr
          exact ⟨some it, hmem, by simp [hv]⟩
        · simp [hvt]
    cases hptd : processTeamData env st data with
    | mk st2 r2 =>
      rw [hptd] at herr
      cases r2 with
      | error e =>
        cases e
        simp only [buildElements, hmi, hptd]
      | ok bl => exact Except.noConfusion herr

/-- C4 amended witness: the concrete id-less demon record aborts the
concrete build. -/
theorem C4_amended_missing_id_aborts_witness :
    (buildElements env1 st0 [some itemNoId]).2 = Except.error () :=
  C4_amended_missing_id_aborts env1 st0 [some itemNoId] itemNoId
    (List.mem_cons_self _ _) (by decide) rfl

/-- C2 counterexample: on an input with no records at all, every team —
`townsfolk` shown here — is still a key of the grouping, mapped to the
empty list rather than being absent, and the assembler still emits a
header-plus-table section for all four memberless teams. -/
theorem C2_counterexample_empty_team_section :
    (groupDataByTeam (filterAndSort ([] : List (Option Item)))).lookup "townsfolk"
      = some [] ∧
    (buildElements env1 st0 ([] : List (Option Item))).2
      = Except.ok [Block.headerText "Townsfolk", Block.table [],
          Block.headerText "Outsider", Block.table [],
          Block.headerText "Minion", Block.table [],
          Block.headerText "Demon", Block.table []] := by
  constructor
  · decide
  · decide

/-- C2 amended: every team of the fixed set is always a key of the
grouping, mapped to the (possibly empty) list of its members, and
whenever the assembler completes it emits a header-plus-table section
for every team of the fixed set, member-having or not. -/

theorem C2_amended_all_teams_sectioned (env : Env) (st : CState)
    (data : List (Option Item)) (blocks : List Block) (t : String)
    (ht : t ∈ validTeams)
    (hok : (buildElements env st data).2 = Except.ok blocks) :
    (groupDataByTeam (filterAndSort data)).lookup t
      = some ((filterAndSort data).filter (fun it => it.team == some t)) ∧
    ∃ rows, List.Sublist [headerBlock env t, Block.table rows] blocks := by
  refine ⟨groupDataByTeam_lookup _ t ht, ?_⟩
  rcases buildElements_ok env st data blocks hok with ⟨mb, tb, hmi, hptd, rfl⟩
  rcases sectionsLoop_structure env validTeams _ st tb (by decide) hptd with
    ⟨f, htb, _⟩
  rcases List.append_of_mem ht with ⟨p, q, hdec⟩
  refine ⟨f t, ?_⟩
  have hlk := groupDataByTeam_lookup (filterAndSort data) t ht
  rw [htb, hdec, List.flatMap_append, List.flatMap_cons]
  simp only [sectionShape, hlk]
  have h1 : List.Sublist [headerBlock env t, Block.table (f t)]
      ([headerBlock env t, Block.table (f t)] ++ q.flatMap
        (sectionShape env (groupDataByTeam (filterAndSort data)) f)) :=
    List.sublist_append_left _ _
  have h2 := h1.trans (List.sublist_append_right
    (p.flatMap (sectionShape env (groupDataByTeam (filterAndSort data)) f)) _)
  exact h2.trans (List.sublist_append_right mb _)

/-- C2 amended witness: the empty input still yields a townsfolk key
(with an empty member list) and a townsfolk header-plus-table section. -/
theorem C2_amended_all_teams_sectioned_witness :
    (groupDataByTeam (filterAndSort ([] : List (Option Item)))).lookup "townsfolk"
      = some ((filterAndSort ([] : List (Option Item))).filter
          (fun it => it.team == some "townsfolk")) ∧
    ∃ rows, List.Sublist [headerBlock env1 "townsfolk", Block.table rows]
      [Block.headerText "Townsfolk", Block.table [],
        Block.headerText "Outsider", Block.table [],
        Block.headerText "Minion", Block.table [],
        Block.headerText "Demon", Block.table []] :=
  C2_amended_all_teams_sectioned env1 st0 [] _ "townsfolk" (by decide) (by decide)

theorem validTeams_order_decomp (A B : String) (hA : A ∈ validTeams)
    (hB : B ∈ validTeams) (hAB : listIdx A validTeams < listIdx B validTeams) :
    ∃ p q r, validTeams = p ++ A :: (q ++ B :: r) := by
  have hA' : A = "townsfolk" ∨ A = "outsider" ∨ A = "minion" ∨ A = "demon" := by
    simpa [validTeams] using hA
  have hB' : B = "townsfolk" ∨ B = "outsider" ∨ B = "minion" ∨ B = "demon" := by
    simpa [validTeams] using hB
  rcases hA' with rfl | rfl | rfl | rfl <;> rcases hB' with rfl | rfl | rfl | rfl <;>
    try exact absurd hAB (by decide)
  · exact ⟨[], [], ["minion", "demon"], rfl⟩
  · exact ⟨[], ["outsider"], ["demon"], rfl⟩
  · exact ⟨[], ["outsider", "minion"], [], rfl⟩
  · exact ⟨["townsfolk"], [], ["demon"], rfl⟩
  · exact ⟨["townsfolk"], ["minion"], [], rfl⟩
  · exact ⟨["townsfolk", "outsider"], [], [], rfl⟩

/-- C8: when the assembler completes, for teams A before B in the fixed
order townsfolk < outsider < minion < demon, both with members, A's
section (header block then member table) appears before B's section in
the assembled block sequence. -/
theorem C8_team_sections_in_fixed_order (env : Env) (st : CState)
    (data : List (Option Item)) (blocks : List Block) (A B : String)
    (hA : A ∈ validTeams) (hB : B ∈ validTeams)
    (hAB : listIdx A validTeams < listIdx B validTeams)
    (hmA : (filterAndSort data).filter (fun it => it.team == some A) ≠ [])
    (hmB : (filterAndSort data).filter (fun it => it.team == some B) ≠ [])
    (hok : (buildElements env st data).2 = Except.ok blocks) :
    ∃ ra rb, List.Sublist
      [headerBlock env A, Block.table ra, headerBlock env B, Block.table rb]
      blocks := by
  rcases buildElements_ok env st data blocks hok with ⟨mb, tb, hmi, hptd, rfl⟩
  rcases sectionsLoop_structure env validTeams _ st tb (by decide) hptd with
    ⟨f, htb, _⟩
  rcases validTeams_order_decomp A B hA hB hAB with ⟨p, q, r, hdec⟩
  refine ⟨f A, f B, ?_⟩
  have hlkA := groupDataByTeam_lookup (filterAndSort data) A hA
  have hlkB := groupDataByTeam_lookup (filterAndSort data) B hB
  rw [htb, hdec, List.flatMap_append, List.flatMap_cons, List.flatMap_append,
    List.flatMap_cons]
  simp only [sectionShape, hlkA, hlkB]
  have h1 : List.Sublist [headerBlock env B, Block.table (f B)]
      ([headerBlock env B, Block.table (f B)] ++ r.flatMap
        (sectionShape env (groupDataByTeam (filterAndSort data)) f)) :=
    List.sublist_append_left _ _
  have h2 := h1.trans (List.sublist_append_right
    (q.flatMap (sectionShape env (groupDataByTeam (filterAndSort data)) f)) _)
  have h3 := (h2.cons₂ (Block.table (f A))).cons₂ (headerBlock env A)
  have h4 := h3.trans (List.sublist_append_right
    (p.flatMap (sectionShape env (groupDataByTeam (filterAndSort data)) f)) _)
  exact h4.trans (List.sublist_append_right mb _)

/-- C8 witness: with one townsfolk and one demon record, the townsfolk
section precedes the demon section. -/
theorem C8_team_sections_in_fixed_order_witness :
    ∃ ra rb, List.Sublist
      [headerBlock env1 "townsfolk", Block.table ra,
        headerBlock env1 "demon", Block.table rb]
      [Block.headerText "Townsfolk",
        Block.table [{ cell := Cell.noImage, name := "Librarian", ability := "Reads" }],
        Block.headerText "Outsider", Block.table [],
        Block.headerText "Minion", Block.table [],
        Block.headerText "Demon",
        Block.table [{ cell := Cell.noImage, name := "Imp", ability := "Kills" }]] :=
  C8_team_sections_in_fixed_order env1 st0 [some itemTf, some itemDemon] _
    "townsfolk" "demon" (by decide) (by decide) (by decide) (by decide) (by decide)
    (by decide)

/-- C10: a record with `id == "_meta"` that also carries a valid team
is not excluded from classification — it is the record the meta block
is derived from (here: the first meta record), it survives filtering
and lands in its team's group, and the completed team sections contain
a row rendering its name and ability in that team's member table. -/
theorem C10_meta_record_with_team_classified (env : Env) (st : CState)
    (pre post : List (Option Item)) (m : Item) (t : String) (blocks : List Block)
    (hpre : ∀ x ∈ pre, ∃ y, x = some y ∧ y.id ≠ some "_meta")
    (hm : m.id = some "_meta") (hteam : m.team = some t) (ht : t ∈ validTeams)
    (hok : (processTeamData env st (pre ++ some m :: post)).2 = Except.ok blocks) :
    processMetaInfo env (pre ++ some m :: post) = Except.ok [metaBlock env m] ∧
    m ∈ filterAndSort (pre ++ some m :: post) ∧
    (groupDataByTeam (filterAndSort (pre ++ some m :: post))).lookup t
      = some ((filterAndSort (pre ++ some m :: post)).filter
          (fun it => it.team == some t)) ∧
    m ∈ (filterAndSort (pre ++ some m :: post)).filter
        (fun it => it.team == some t) ∧
    ∃ rows, Block.table rows ∈ blocks ∧
      ∃ r ∈ rows, r.name = m.name.getD "N/A" ∧ r.ability = m.ability.getD "N/A" := by
  have hv : validTeam m.team = true := by
    rw [hteam]
    simpa [validTeam] using ht
  have hmemdata : some m ∈ pre ++ some m :: post :=
    List.mem_append_right pre (List.mem_cons_self _ _)
  have hmemf : m ∈ filteredData (pre ++ some m :: post) := by
    apply List.mem_filterMap.mpr
    exact ⟨some m, hmemdata, by simp [hv]⟩
  have hmems : m ∈ filterAndSort (pre ++ some m :: post) :=
    (stableSortByKey_perm _ _).mem_iff.mpr hmemf
  have hmemfil : m ∈ (filterAndSort (pre ++ some m :: post)).filter
      (fun it => it.team == some t) :=
    List.mem_filter.mpr ⟨hmems, by simp [hteam]⟩
  have hlk := groupDataByTeam_lookup (filterAndSort (pre ++ some m :: post)) t ht
  refine ⟨?_, hmems, hlk, hmemfil, ?_⟩
  · unfold processMetaInfo
    rw [findMeta_append pre m post hpre hm]
  · rcases sectionsLoop_structure env validTeams _ st blocks (by decide) hok with
      ⟨f, hbl, hcorr⟩
    refine ⟨f t, ?_, ?_⟩
    · rw [hbl]
      apply List.mem_flatMap.mpr
      refine ⟨t, ht, ?_⟩
      simp [sectionShape, hlk]
    · have hnames := hcorr t ht _ hlk
      have hpair : (m.name.getD "N/A", m.ability.getD "N/A")
          ∈ (f t).map (fun r => (r.name, r.ability)) := by
        rw [hnames]
        exact List.mem_map.mpr ⟨m, hmemfil, rfl⟩
      rcases List.mem_map.mp hpair with ⟨r, hr, heq⟩
      rcases Prod.mk.injEq _ _ _ _ ▸ heq with ⟨h1, h2⟩
      exact ⟨r, hr, h1, h2⟩

/-- C10 witness: a single record that is both the `_meta` sentinel and
a demon lands in the meta block and in the demon table. -/
theorem C10_meta_record_with_team_classified_witness :
    processMetaInfo env1 ([] ++ some itemMetaDemon :: [])
      = Except.ok [metaBlock env1 itemMetaDemon] ∧
    itemMetaDemon ∈ filterAndSort ([] ++ some itemMetaDemon :: []) ∧
    (groupDataByTeam (filterAndSort ([] ++ some itemMetaDemon :: []))).lookup "demon"
      = some ((filterAndSort ([] ++ some itemMetaDemon :: [])).filter
          (fun it => it.team == some "demon")) ∧
    itemMetaDemon ∈ (filterAndSort ([] ++ some itemMetaDemon :: [])).filter
        (fun it => it.team == some "demon") ∧
    ∃ rows, Block.table rows ∈
        [Block.headerText "Townsfolk", Block.table [],
          Block.headerText "Outsider", Block.table [],
          Block.headerText "Minion", Block.table [],
          Block.headerText "Demon",
          Block.table [{ cell := Cell.noImage, name := "Imp", ability := "Kills" }]] ∧
      ∃ r ∈ rows, r.name = itemMetaDemon.name.getD "N/A" ∧
        r.ability = itemMetaDemon.ability.getD "N/A" :=
  C10_meta_record_with_team_classified env1 st0 [] [] itemMetaDemon "demon" _
    (by intro x hx; exact absurd hx (List.not_mem_nil x))
    rfl rfl (by decide) (by decide)
